import Mathlib

/-!
Verification of the eMusicReader repository.

Part one is a shallow embedding of the upload/validation server
(`server.js`): the MusicXML/MXL validator `validateMusicXML`, the PDF
validator `validatePDF`, the storage-path parser `parseObjectPath`, and the
multer file-size limit together with the global error handler.

Part two models the score-processing pipeline (timeline builder, pattern
detector, pattern grouper).  That code lives in the application's
`index.html`, which is not part of this snapshot; the definitions are
modelled from the specification (§4.4–§4.6) and the repository's technical
documentation, and each such definition says so in its doc comment.

All string work is done over `List Char` so that every definition reduces
inside the kernel (JS strings are sequences of UTF-16 code units; the inputs
of interest are plain text, where characters coincide).
-/

namespace MusicReader

/-- Result object returned by the validators: `{ valid, errors }`. -/
structure VResult where
  valid : Bool
  errors : List String
deriving DecidableEq

instance {ε α : Type} [DecidableEq ε] [DecidableEq α] :
    DecidableEq (Except ε α) := fun x y =>
  match x, y with
  | .error a, .error b =>
    if h : a = b then isTrue (by rw [h]) else isFalse (by simp [h])
  | .error _, .ok _ => isFalse (by simp)
  | .ok _, .error _ => isFalse (by simp)
  | .ok a, .ok b =>
    if h : a = b then isTrue (by rw [h]) else isFalse (by simp [h])

/-- Substring test over character lists (JS `String.prototype.includes`). -/
def listContains (l pat : List Char) : Bool :=
  pat.isPrefixOf l ||
    match l with
    | [] => false
    | _ :: t => listContains t pat

/-- JS `s.includes(pat)` on Lean strings. -/
def strContains (s pat : String) : Bool :=
  listContains s.toList pat.toList

/-- Lower-case a character list (JS `String.prototype.toLowerCase`, ASCII). -/
def lowerChars (l : List Char) : List Char :=
  l.map Char.toLower

/-- JS `s.startsWith(pre)`. -/
def strStarts (s pre : String) : Bool :=
  pre.toList.isPrefixOf s.toList

/-- Whitespace class used by the validator's regular expressions
(`\s`, modelled by the ASCII whitespace characters). -/
def jsSpace (c : Char) : Bool :=
  c = ' ' || c = '\t' || c = '\n' || c = '\r'

/-- JS `s.split(sep)` for a single-character separator, over characters. -/
def splitChars (sep : Char) : List Char → List (List Char)
  | [] => [[]]
  | c :: rest =>
    if c = sep then [] :: splitChars sep rest
    else
      match splitChars sep rest with
      | [] => [[c]]
      | h :: t => (c :: h) :: t

/-- Node `path.extname`: the extension of the last path segment, from its
last dot to the end; empty when the segment has no dot or only a leading
dot. -/
def extname (s : String) : String :=
  let cs := (splitChars '/' s.toList).getLastD []
  if cs.contains '.' then
    let k := (cs.reverse.takeWhile (fun c => c ≠ '.')).length
    let idx := cs.length - 1 - k
    if idx = 0 then "" else String.mk (cs.drop idx)
  else ""

/-- The validator's `path.extname(filename).toLowerCase()`, as characters. -/
def extLower (filename : String) : List Char :=
  lowerChars (extname filename).toList

/-- In-memory upload buffer, as the validator observes it.  `asZip` is the
outcome of `JSZip.loadAsync` (entry name to decoded text, `none` when the
load rejects, in which case `zipError` is the exception message caught by
`validateMusicXML`); `text` is `buffer.toString('utf-8')`. -/
structure UploadBuffer where
  asZip : Option (List (String × String))
  zipError : String
  text : String

/-- Event-handler attribute names of the third suspicious pattern
`/\s(onclick|onload|onerror|onmouseover|onfocus|onblur)\s*=/i`. -/
def handlerKeywords : List (List Char) :=
  ["onclick", "onload", "onerror", "onmouseover", "onfocus", "onblur"].map
    String.toList

/-- Matches `(kw)\s*=` at the head of an (already lower-cased) text. -/
def matchHandlerAt (l : List Char) : Bool :=
  handlerKeywords.any fun kw =>
    kw.isPrefixOf l && ((l.drop kw.length).dropWhile jsSpace).head? = some '='

/-- Scans lower-cased text for `\s(onclick|…)\s*=`. -/
def hasHandlerAttr : List Char → Bool
  | [] => false
  | c :: rest => (jsSpace c && matchHandlerAt rest) || hasHandlerAttr rest

/-- Matches `system\s+["']` at the head of an (already lower-cased) text,
the fifth suspicious pattern `/SYSTEM\s+["']/i`. -/
def matchSystemAt (l : List Char) : Bool :=
  "system".toList.isPrefixOf l &&
    (let r := l.drop 6
     let r' := r.dropWhile jsSpace
     decide (r'.length < r.length) &&
       (r'.head? = some '"' || r'.head? = some '\''))

/-- Scans lower-cased text for `SYSTEM\s+["']`. -/
def hasSystemQuote : List Char → Bool
  | [] => false
  | c :: rest => matchSystemAt (c :: rest) || hasSystemQuote rest

/-- The validator's `suspiciousPatterns` loop: `/<script/i`,
`/javascript:/i`, the event-handler pattern, `/<!ENTITY/i` and
`/SYSTEM\s+["']/i` (case-insensitivity realised by lower-casing). -/
def isSuspicious (xml : String) : Bool :=
  let low := lowerChars xml.toList
  listContains low "<script".toList ||
  listContains low "javascript:".toList ||
  hasHandlerAttr low ||
  listContains low "<!entity".toList ||
  hasSystemQuote low

/-- `xmlContent.includes('<?xml')`. -/
def hasXmlDecl (xml : String) : Bool := strContains xml "<?xml"

/-- `xmlContent.includes('<score-partwise')`. -/
def hasPartwise (xml : String) : Bool := strContains xml "<score-partwise"

/-- `xmlContent.includes('<score-timewise')`. -/
def hasTimewise (xml : String) : Bool := strContains xml "<score-timewise"

/-- `xmlContent.includes('<part-list>') || xmlContent.includes('<part-list ')`. -/
def hasPartListElem (xml : String) : Bool :=
  strContains xml "<part-list>" || strContains xml "<part-list "

/-- The content checks of `validateMusicXML` (server.js lines 306–336),
applied to the resolved XML text in source order: XML-document heuristic,
root element, part-list, suspicious patterns, then acceptance. -/
def validateXmlText (xml : String) : VResult :=
  if !hasXmlDecl xml && !hasPartwise xml && !hasTimewise xml then
    ⟨false, ["Invalid MusicXML: Not a valid XML document"]⟩
  else if !hasPartwise xml && !hasTimewise xml then
    ⟨false, ["Invalid MusicXML: Missing score-partwise or score-timewise root element"]⟩
  else if !hasPartListElem xml then
    ⟨false, ["Invalid MusicXML: Missing part-list element"]⟩
  else if isSuspicious xml then
    ⟨false, ["Security warning: File contains potentially malicious content"]⟩
  else
    ⟨true, []⟩

/-- Tries `full-path="([^"]+)"` at the head of `m` (the text after a
candidate gap): literal `full-path="`, then a non-empty run of non-quote
characters, then the closing quote. -/
def fullPathAttrAt (m : List Char) : Option (List Char) :=
  if "full-path=\"".toList.isPrefixOf m then
    let after := m.drop 11
    let cap := after.takeWhile (fun c => c ≠ '"')
    if cap ≠ [] ∧ (after.drop cap.length).head? = some '"' then some cap
    else none
  else none

/-- Backtracking for the greedy `[^>]*` gap of the container regex: the
largest gap inside the `>`-free span after `rootfile` at which the
`full-path` attribute matches wins. -/
def rootfileCapture (l : List Char) : Option (List Char) :=
  let maxGap := (l.takeWhile (fun c => c ≠ '>')).length
  ((List.range (maxGap + 1)).reverse).findSome? fun g => fullPathAttrAt (l.drop g)

/-- The container-descriptor match
`containerXml.match(/rootfile[^>]*full-path="([^"]+)"/)`: scan left to
right for `rootfile`, then match the gap and attribute; the capture group
is the root-file path. -/
def findRootfilePath : List Char → Option (List Char)
  | [] => none
  | c :: rest =>
    if "rootfile".toList.isPrefixOf (c :: rest) then
      match rootfileCapture ((c :: rest).drop 8) with
      | some cap => some cap
      | none => findRootfilePath rest
    else findRootfilePath rest

/-- Content resolution of `validateMusicXML` (server.js lines 276–304): on
extension `.mxl`, open the archive, read `META-INF/container.xml`, extract
the root-file path and read that entry; otherwise use the buffer as UTF-8
text.  A rejected archive load is the one internal exception source; the
surrounding `catch` turns it into the `Validation error:` message. -/
def resolveContent (input : UploadBuffer) (filename : String) :
    Except String String :=
  if extLower filename = ".mxl".toList then
    match input.asZip with
    | none => .error ("Validation error: " ++ input.zipError)
    | some z =>
      match z.lookup "META-INF/container.xml" with
      | none => .error "Invalid MXL: Missing META-INF/container.xml"
      | some containerXml =>
        match findRootfilePath containerXml.toList with
        | none => .error "Invalid MXL: Cannot find rootfile in container.xml"
        | some p =>
          let rootfilePath := String.mk p
          match z.lookup rootfilePath with
          | none =>
            .error ("Invalid MXL: Rootfile " ++ rootfilePath ++
              " not found in archive")
          | some content => .ok content
  else .ok input.text

/-- `validateMusicXML(buffer, filename)` (server.js lines 272–341): resolve
the content, then run the content checks; every failure returns
`{ valid: false, errors: [message] }`. -/
def validateMusicXML (input : UploadBuffer) (filename : String) : VResult :=
  match resolveContent input filename with
  | .error e => ⟨false, [e]⟩
  | .ok xml => validateXmlText xml

/-- The import stage of the pipeline, as delimited by the specification's
Score Importer (§4.1): container resolution plus the XML-document check;
later checks (root element, part-list, security) belong to the validation
gate. -/
def importScoreText (input : UploadBuffer) (filename : String) :
    Except String String :=
  match resolveContent input filename with
  | .error e => .error e
  | .ok xml =>
    if !hasXmlDecl xml && !hasPartwise xml && !hasTimewise xml then
      .error "Invalid MusicXML: Not a valid XML document"
    else .ok xml

/-- Scans text for a keyword followed immediately by a whitespace
character (the `/JS\s/` and `/AA\s/` shapes). -/
def hasKwThenSpace (kw : List Char) : List Char → Bool
  | [] => false
  | c :: rest =>
    (kw.isPrefixOf (c :: rest) &&
      ((c :: rest).drop kw.length).head?.any jsSpace) ||
    hasKwThenSpace kw rest

/-- Case-insensitive `/kw\s/` search on the PDF's binary string. -/
def pdfSlashKeywordSpace (cs kw : List Char) : Bool :=
  hasKwThenSpace kw (lowerChars cs)

/-- `validatePDF(buffer)` (server.js lines 343–382), the buffer modelled as
its binary string.  The missing-EOF branch pushes a warning into the local
`errors` array, but the source then returns the literal
`{ valid: true, errors: [] }`, so the warning is dropped and the accepting
result is always empty. -/
def validatePDF (buffer : String) : VResult :=
  let cs := buffer.toList
  if !"%PDF-".toList.isPrefixOf (cs.take 8) then
    ⟨false, ["Invalid PDF: Missing PDF header"]⟩
  else if
    listContains (lowerChars cs) "/javascript".toList ||
    pdfSlashKeywordSpace cs "/js".toList ||
    listContains (lowerChars cs) "/openaction".toList ||
    pdfSlashKeywordSpace cs "/aa".toList ||
    listContains (lowerChars cs) "/launch".toList ||
    listContains (lowerChars cs) "/embeddedfile".toList ||
    listContains (lowerChars cs) "/richmedia".toList then
    ⟨false, ["Security warning: PDF contains potentially dangerous content (JavaScript, auto-actions, or embedded files)"]⟩
  else
    ⟨true, []⟩

/-- Result of `parseObjectPath`. -/
structure ObjectPath where
  bucketName : String
  objectName : String
deriving DecidableEq

/-- `parseObjectPath(objectPath)` (server.js lines 184–196): prefix a `/`
when absent, split on `/`, fail with `Invalid path` on fewer than three
parts, otherwise bucket is the second part and object the rest rejoined
with `/`. -/
def parseObjectPath (objectPath : String) : Except String ObjectPath :=
  let cs := objectPath.toList
  let cs := if cs.head? = some '/' then cs else '/' :: cs
  let parts := splitChars '/' cs
  if parts.length < 3 then .error "Invalid path"
  else
    .ok ⟨String.mk (parts.getD 1 []),
         String.mk (List.intercalate ['/'] (parts.drop 2))⟩

/-- The multer error raised when a limit is hit. -/
structure MulterError where
  code : String
  message : String
deriving DecidableEq

/-- The `limits.fileSize` value of the upload middleware
(server.js line 247): `25 * 1024 * 1024`. -/
def fileSizeLimit : Nat := 25 * 1024 * 1024

/-- The multer file-size limit, per multer's documented behaviour: a file
whose byte size exceeds `limits.fileSize` aborts the upload with a
`MulterError` of code `LIMIT_FILE_SIZE`; otherwise the upload proceeds. -/
def multerSizeCheck (size : Nat) : Option MulterError :=
  if fileSizeLimit < size then some ⟨"LIMIT_FILE_SIZE", "File too large"⟩
  else none

/-- The `MulterError` branch of the global error handler
(server.js lines 1014–1019): `LIMIT_FILE_SIZE` gives HTTP 400 with the
fixed message, any other multer error gives HTTP 400 with its own
message. -/
def errorHandlerResponse (err : MulterError) : Nat × String :=
  if err.code = "LIMIT_FILE_SIZE" then
    (400, "File too large. Maximum size is 25MB.")
  else (400, err.message)

/-- Composition of the size limit with the error handler: the HTTP
response produced for an oversized upload, `none` when the size limit does
not fire. -/
def uploadSizeOutcome (size : Nat) : Option (Nat × String) :=
  (multerSizeCheck size).map errorHandlerResponse

/-! ### Timeline builder (§4.4)

The pipeline below lives in the application's `index.html`, which is not
part of this snapshot; only the specification and the repository's
technical documentation describe it. -/

/-- Modelled from the spec: a `TimelineEntry` of §3 / the documentation's
`musicTimeline` element, with beat times as rationals. -/
structure TimelineEntry where
  globalTime : ℚ
  duration : ℚ
  pitch : Int
deriving DecidableEq

/-- Modelled from the spec: one note of `timelineByMeasure`, carrying its
measure-relative start time and duration in beats. -/
structure TimedNote where
  time : ℚ
  duration : ℚ
  pitch : Int
deriving DecidableEq

/-- Modelled from the spec: one measure's timeline data together with the
measure's total duration in beats. -/
structure MeasureData where
  notes : List TimedNote
  duration : ℚ
deriving DecidableEq

/-- Modelled from the spec: the body of `buildCompleteTimeline`
(§4.4 and the documentation's pseudocode) with the running `globalTime`
made explicit — each measure's notes are emitted at
`globalTime + note.time`, then the clock advances by the measure's
duration. -/
def buildTimelineFrom (t : ℚ) : List MeasureData → List TimelineEntry
  | [] => []
  | m :: ms =>
    (m.notes.map fun n => ⟨t + n.time, n.duration, n.pitch⟩) ++
      buildTimelineFrom (t + m.duration) ms

/-- Modelled from the spec: `buildCompleteTimeline`, the `globalTime`
counter initialised to 0. -/
def buildCompleteTimeline (ms : List MeasureData) : List TimelineEntry :=
  buildTimelineFrom 0 ms

/-- A valid score, as the specification constrains the timeline input:
non-negative measure durations, per-measure note offsets already in
interleaved (non-decreasing) order, and every offset within the measure
(§3 Measure invariant, §4.3 ordering rule). -/
def ValidScore (ms : List MeasureData) : Prop :=
  ∀ m ∈ ms, 0 ≤ m.duration ∧
    (m.notes.map (fun n => n.time)).Chain' (· ≤ ·) ∧
    ∀ n ∈ m.notes, 0 ≤ n.time ∧ n.time ≤ m.duration

instance : DecidablePred ValidScore := fun ms => by
  unfold ValidScore; infer_instance

/-! ### Pattern detector (§4.5) -/

/-- Modelled from the spec: a detected `Pattern` — key over the step (or
direction) alphabet, window length, surviving start positions. -/
structure Pattern where
  key : List Char
  length : Nat
  positions : List Nat
deriving DecidableEq

/-- The substring key `S[i..i+L)` of §4.5 step 1. -/
def windowKey (S : List Char) (i L : Nat) : List Char :=
  (S.drop i).take L

/-- Start indices (in ascending order) at which `key` occurs as a window
of length `L`, §4.5 step 2. -/
def positionsOf (S : List Char) (L : Nat) (key : List Char) : List Nat :=
  (List.range (S.length - L + 1)).filter fun i => windowKey S i L == key

/-- First-occurrence deduplication, keeping insertion order (JS object
keys preserve it). -/
def firstDedupAux {α : Type} [BEq α] (seen : List α) : List α → List α
  | [] => []
  | a :: rest =>
    if seen.contains a then firstDedupAux seen rest
    else a :: firstDedupAux (a :: seen) rest

/-- First-occurrence deduplication of a list. -/
def firstDedup {α : Type} [BEq α] (l : List α) : List α :=
  firstDedupAux [] l

/-- Greedy overlap removal, continuing after a kept occurrence at `last`:
an occurrence is kept only when its window starts at or after
`last + L` (§4.5 step 3). -/
def greedyKeepFrom (L last : Nat) : List Nat → List Nat
  | [] => []
  | p :: ps =>
    if last + L ≤ p then p :: greedyKeepFrom L p ps
    else greedyKeepFrom L last ps

/-- Greedy overlap removal in ascending start order: the first occurrence
is always kept. -/
def greedyKeep (L : Nat) : List Nat → List Nat
  | [] => []
  | p :: ps => p :: greedyKeepFrom L p ps

/-- Modelled from the spec: the patterns of one window length — group
start indices by key, retain keys with two or more occurrences, remove
overlaps greedily, and drop keys whose surviving count falls below two
(§4.5 steps 2–4). -/
def patternsOfLength (S : List Char) (L : Nat) : List Pattern :=
  (firstDedup ((List.range (S.length - L + 1)).map fun i =>
    windowKey S i L)).filterMap fun k =>
    let pos := positionsOf S L k
    if 2 ≤ pos.length then
      let kept := greedyKeep L pos
      if 2 ≤ kept.length then some ⟨k, L, kept⟩ else none
    else none

/-- The window-length cap of §4.5 step 1: 26, or the sequence length if
smaller. -/
def patternCap (n : Nat) : Nat := min 26 n

/-- Modelled from the spec: `detectPatternsFromSteps` — run every window
length from 3 up to the cap over the step sequence and collect the
retained patterns (deterministic iteration order: lengths ascending,
start indices ascending). -/
def detectPatternsFromSteps (S : List Char) : List Pattern :=
  ((List.range' 3 (patternCap S.length - 2)).map (patternsOfLength S)).flatten

/-! ### Pattern grouper (§4.6) -/

/-- Levenshtein edit distance with explicit fuel, so that the definition
is structurally recursive and computes inside the kernel; the fuel
`|a| + |b|` always suffices since every recursive call shortens the
combined length. -/
def levFuel : Nat → List Char → List Char → Nat
  | 0, xs, ys => max xs.length ys.length
  | _ + 1, [], ys => ys.length
  | _ + 1, x :: xs, [] => (x :: xs).length
  | n + 1, x :: xs, y :: ys =>
    if x = y then levFuel n xs ys
    else 1 + min (levFuel n xs (y :: ys))
      (min (levFuel n (x :: xs) ys) (levFuel n xs ys))

/-- Modelled from the spec: Levenshtein edit distance between two pattern
keys (§4.6). -/
def levenshtein (a b : List Char) : Nat :=
  levFuel (a.length + b.length) a b

/-- Modelled from the spec: two keys belong together when their edit
distance is at most 30% of the longer key's length (§4.6). -/
def thr (a b : List Char) : Bool :=
  10 * levenshtein a b ≤ 3 * max a.length b.length

/-- Whether the group `g` contains a key within threshold of `k`. -/
def nearGroup (k : List Char) (g : List (List Char)) : Bool :=
  g.any fun x => thr k x

/-- Modelled from the spec: add one key to the clustering — merge every
group containing a key within threshold of `k` into one group together
with `k` (union-find / greedy clustering closed under merging, §4.6). -/
def addKey (groups : List (List (List Char))) (k : List Char) :
    List (List (List Char)) :=
  (k :: (groups.filter (nearGroup k)).flatten) ::
    groups.filter fun g => !nearGroup k g

/-- Modelled from the spec: `groupSimilarPhrases` — cluster the pattern
keys by the 30% edit-distance threshold, transitively closed (§4.6). -/
def groupSimilarPhrases (keys : List (List Char)) :
    List (List (List Char)) :=
  keys.foldl addKey []

/-! ### Pipeline determinism (§5, §9) -/

/-- Modelled from the spec: the interleaver's output consumed by the
timeline and pattern stages — the global step sequence and the per-measure
timing data. -/
structure ScoreInput where
  steps : List Char
  measures : List MeasureData
deriving DecidableEq

/-- Modelled from the spec: the global mutable arrays of the
documentation's state (note steps, playback timeline, detected patterns,
pattern groups) that one pipeline run rebuilds. -/
structure GlobalState where
  noteSteps : List Char
  musicTimeline : List TimelineEntry
  detectedPatterns : List Pattern
  patternGroups : List (List (List Char))
deriving DecidableEq

/-- Modelled from the spec: one pipeline run over a loaded score — the
run resets every global array and rebuilds it from the input alone
(`populateStaffFromMusicXML` resets the arrays before building; §5: no
shared mutable state across runs, §9: one owned arena per run). -/
def runPipeline (prior : GlobalState) (input : ScoreInput) : GlobalState :=
  { prior with
    noteSteps := input.steps
    musicTimeline := buildCompleteTimeline input.measures
    detectedPatterns := detectPatternsFromSteps input.steps
    patternGroups := groupSimilarPhrases
      ((detectPatternsFromSteps input.steps).map fun p => p.key) }

/-! ## Theorems -/

/-- C1: for every input buffer and declared filename, an `.mxl` extension
makes the importer open the buffer as a zip archive, locate
`META-INF/container.xml`, extract the root-file path from the `full-path`
attribute of a `rootfile` element and read that archive entry as the score
text, while every other extension reads the buffer directly as UTF-8
text. -/
theorem resolveContent_spec :
    (∀ (input : UploadBuffer) (fn : String),
      extLower fn ≠ ".mxl".toList →
      resolveContent input fn = .ok input.text) ∧
    (∀ (input : UploadBuffer) (fn : String) (z : List (String × String))
      (c : String) (p : List Char) (content : String),
      extLower fn = ".mxl".toList →
      input.asZip = some z →
      z.lookup "META-INF/container.xml" = some c →
      findRootfilePath c.toList = some p →
      z.lookup (String.mk p) = some content →
      resolveContent input fn = .ok content) := by
  constructor
  · intro input fn h
    unfold resolveContent
    rw [if_neg h]
  · intro input fn z c p content hext hzip hcont hroot hentry
    unfold resolveContent
    rw [if_pos hext, hzip]
    dsimp only
    rw [hcont]
    dsimp only
    rw [hroot]
    dsimp only
    rw [hentry]

/-- Witness for `resolveContent_spec` at concrete inputs: a plain `.xml`
buffer passes through as text, and a well-formed `.mxl` archive resolves
to its root-file entry. -/
theorem resolveContent_spec_witness :
    resolveContent ⟨none, "", "plain text"⟩ "song.xml" = .ok "plain text" ∧
    resolveContent
      ⟨some [("META-INF/container.xml", "<rootfile full-path=\"s.xml\"/>"),
             ("s.xml", "<score-partwise/>")], "", ""⟩ "song.mxl" =
      .ok "<score-partwise/>" :=
  ⟨resolveContent_spec.1 ⟨none, "", "plain text"⟩ "song.xml" (by decide),
   resolveContent_spec.2
     ⟨some [("META-INF/container.xml", "<rootfile full-path=\"s.xml\"/>"),
            ("s.xml", "<score-partwise/>")], "", ""⟩ "song.mxl"
     [("META-INF/container.xml", "<rootfile full-path=\"s.xml\"/>"),
      ("s.xml", "<score-partwise/>")]
     "<rootfile full-path=\"s.xml\"/>" "s.xml".toList "<score-partwise/>"
     (by decide) rfl (by decide) (by decide) (by decide)⟩

/-- C7: the pipeline is deterministic across runs — the rebuilt state is a
function of the input alone (every global array is reset and rebuilt), so
two runs over identical input yield structurally identical note, timeline
and pattern outputs whatever state earlier runs left behind; in
particular the detected patterns are exactly the detector's output on the
input sequence. -/
theorem runPipeline_deterministic (g₁ g₂ : GlobalState) (input : ScoreInput) :
    runPipeline g₁ input = runPipeline g₂ input ∧
    (runPipeline g₁ input).detectedPatterns =
      detectPatternsFromSteps input.steps := by
  cases g₁
  cases g₂
  exact ⟨rfl, rfl⟩

/-- C9: every upload larger than 25 MB is aborted by the multer size
limit with code `LIMIT_FILE_SIZE`, and the global error handler answers
HTTP 400 with `File too large. Maximum size is 25MB.`. -/
theorem uploadSizeLimit_rejects (size : Nat)
    (h : 25 * 1024 * 1024 < size) :
    uploadSizeOutcome size =
      some (400, "File too large. Maximum size is 25MB.") := by
  unfold uploadSizeOutcome multerSizeCheck fileSizeLimit
  rw [if_pos h]
  rfl

/-- Witness for `uploadSizeLimit_rejects` one byte over the limit. -/
theorem uploadSizeLimit_rejects_witness :
    uploadSizeOutcome (25 * 1024 * 1024 + 1) =
      some (400, "File too large. Maximum size is 25MB.") :=
  uploadSizeLimit_rejects (25 * 1024 * 1024 + 1) (by omega)

/-- C10: `parseObjectPath` first prefixes `/` when the string does not
start with `/`; when the normalised path splits on `/` into fewer than
three parts it throws `Invalid path`; otherwise it returns the second
part as the bucket name and the remaining parts rejoined with `/` as the
object name. -/
theorem parseObjectPath_spec (s : String) :
    ((splitChars '/' (if strStarts s "/" then s else "/" ++ s).toList).length < 3 →
      parseObjectPath s = .error "Invalid path") ∧
    (¬ (splitChars '/' (if strStarts s "/" then s else "/" ++ s).toList).length < 3 →
      parseObjectPath s = .ok
        ⟨String.mk ((splitChars '/'
            (if strStarts s "/" then s else "/" ++ s).toList).getD 1 []),
         String.mk (List.intercalate ['/'] ((splitChars '/'
            (if strStarts s "/" then s else "/" ++ s).toList).drop 2))⟩) := by
  have hslash : "/".toList = ['/'] := rfl
  have hiff : strStarts s "/" = true ↔ s.toList.head? = some '/' := by
    unfold strStarts
    rw [hslash]
    cases h : s.toList with
    | nil => decide
    | cons c t =>
      rw [List.isPrefixOf_cons₂, List.isPrefixOf_nil_left, Bool.and_true,
        beq_iff_eq, List.head?_cons, Option.some.injEq]
      exact eq_comm
  have hnorm : (if strStarts s "/" then s else "/" ++ s).toList =
      (if s.toList.head? = some '/' then s.toList else '/' :: s.toList) := by
    by_cases hs : strStarts s "/" = true
    · rw [if_pos hs, if_pos (hiff.1 hs)]
    · rw [if_neg hs, if_neg (fun hh => hs (hiff.2 hh))]
      show ("/" ++ s).data = '/' :: s.data
      have hd : "/".data = ['/'] := rfl
      rw [String.data_append, hd]
      rfl
  have hdef : parseObjectPath s =
      if (splitChars '/' (if s.toList.head? = some '/' then s.toList
          else '/' :: s.toList)).length < 3 then .error "Invalid path"
      else .ok ⟨String.mk ((splitChars '/' (if s.toList.head? = some '/'
            then s.toList else '/' :: s.toList)).getD 1 []),
          String.mk (List.intercalate ['/'] ((splitChars '/'
            (if s.toList.head? = some '/' then s.toList
              else '/' :: s.toList)).drop 2))⟩ := rfl
  constructor
  · intro h
    rw [hnorm] at h
    rw [hdef, if_pos h]
  · intro h
    rw [hnorm] at h
    rw [hdef, if_neg h, hnorm]

/-- C3: a MusicXML text that reaches the validation checks is accepted —
`valid = true` with an empty error list — exactly when it contains a
`score-partwise` or `score-timewise` root element and a `part-list`
element and matches none of the executable/script-like content markers;
any text failing one of those conditions is rejected with
`valid = false`. -/
theorem validateXmlText_accepts_iff (xml : String) :
    ((hasPartwise xml || hasTimewise xml) = true ∧
        hasPartListElem xml = true ∧ isSuspicious xml = false →
      validateXmlText xml = ⟨true, []⟩) ∧
    (¬ ((hasPartwise xml || hasTimewise xml) = true ∧
        hasPartListElem xml = true ∧ isSuspicious xml = false) →
      (validateXmlText xml).valid = false) := by
  constructor
  · rintro ⟨hroot, hpl, hsus⟩
    rw [Bool.or_eq_true] at hroot
    rcases hroot with h | h <;> simp [validateXmlText, h, hpl, hsus]
  · intro hfail
    by_cases hroot : (hasPartwise xml || hasTimewise xml) = true
    · by_cases hpl : hasPartListElem xml = true
      · have hsus : isSuspicious xml = true := by
          rcases hb : isSuspicious xml with _ | _
          · exact absurd ⟨hroot, hpl, hb⟩ hfail
          · rfl
        rw [Bool.or_eq_true] at hroot
        rcases hroot with h | h <;> simp [validateXmlText, h, hpl, hsus]
      · have hp : hasPartListElem xml = false := by
          rcases hb : hasPartListElem xml with _ | _
          · rfl
          · exact absurd hb hpl
        rw [Bool.or_eq_true] at hroot
        rcases hroot with h | h <;> simp [validateXmlText, h, hp]
    · have hr : hasPartwise xml = false ∧ hasTimewise xml = false := by
        revert hroot
        cases hasPartwise xml <;> cases hasTimewise xml <;> simp
      cases hd : hasXmlDecl xml <;>
        simp [validateXmlText, hr.1, hr.2, hd]

/-- Witness for `validateXmlText_accepts_iff`: a minimal well-formed score
is accepted, a text without the required elements is rejected. -/
theorem validateXmlText_accepts_iff_witness :
    validateXmlText "<score-partwise><part-list>" = ⟨true, []⟩ ∧
    (validateXmlText "<hello/>").valid = false :=
  ⟨(validateXmlText_accepts_iff "<score-partwise><part-list>").1 (by decide),
   (validateXmlText_accepts_iff "<hello/>").2 (by decide)⟩

/-- C8: the validators are total at their interface — they always produce
a `{ valid, errors }` object; the one internal exception source (a
rejected archive load) is caught and converted into `valid = false` with
a `Validation error:` message, and every failing result carries an error
message. -/
theorem validators_interface_total :
    (∀ (input : UploadBuffer) (fn : String),
      input.asZip = none → extLower fn = ".mxl".toList →
      validateMusicXML input fn =
        ⟨false, ["Validation error: " ++ input.zipError]⟩) ∧
    (∀ (input : UploadBuffer) (fn : String),
      (validateMusicXML input fn).valid = false →
      (validateMusicXML input fn).errors ≠ []) ∧
    (∀ buffer : String,
      (validatePDF buffer).valid = false →
      (validatePDF buffer).errors ≠ []) := by
  refine ⟨?_, ?_, ?_⟩
  · intro input fn hz hext
    unfold validateMusicXML resolveContent
    rw [if_pos hext, hz]
  · intro input fn
    unfold validateMusicXML
    cases hres : resolveContent input fn with
    | error e => intro _; simp
    | ok xml =>
      dsimp only
      unfold validateXmlText
      split
      · simp
      · split
        · simp
        · split
          · simp
          · split <;> simp
  · intro buffer
    unfold validatePDF
    dsimp only
    split
    · simp
    · split <;> simp

/-- Witness for `validators_interface_total` at concrete inputs: an
unreadable `.mxl` archive is converted into a caught validation error, and
two concrete failures carry messages. -/
theorem validators_interface_total_witness :
    validateMusicXML ⟨none, "oops", ""⟩ "x.MXL" =
      ⟨false, ["Validation error: oops"]⟩ ∧
    (validateMusicXML ⟨none, "e", "nope"⟩ "y.xml").errors ≠ [] ∧
    (validatePDF "junk").errors ≠ [] :=
  ⟨validators_interface_total.1 ⟨none, "oops", ""⟩ "x.MXL" rfl (by decide),
   validators_interface_total.2.1 ⟨none, "e", "nope"⟩ "y.xml" (by decide),
   validators_interface_total.2.2 "junk" (by decide)⟩

/-- Error messages produced by content resolution: the three MXL shapes or
a caught exception message. -/
theorem resolveContent_error_form (input : UploadBuffer) (fn : String)
    (e : String) (h : resolveContent input fn = .error e) :
    e = "Invalid MXL: Missing META-INF/container.xml" ∨
    e = "Invalid MXL: Cannot find rootfile in container.xml" ∨
    (∃ p : List Char,
      e = "Invalid MXL: Rootfile " ++ String.mk p ++ " not found in archive") ∨
    (∃ m : String, e = "Validation error: " ++ m) := by
  unfold resolveContent at h
  by_cases hext : extLower fn = ".mxl".toList
  · rw [if_pos hext] at h
    cases hz : input.asZip with
    | none =>
      rw [hz] at h
      dsimp only at h
      injection h with h'
      exact Or.inr (Or.inr (Or.inr ⟨input.zipError, h'.symm⟩))
    | some z =>
      rw [hz] at h
      dsimp only at h
      cases hc : z.lookup "META-INF/container.xml" with
      | none =>
        rw [hc] at h
        dsimp only at h
        injection h with h'
        exact Or.inl h'.symm
      | some c =>
        rw [hc] at h
        dsimp only at h
        cases hr : findRootfilePath c.toList with
        | none =>
          rw [hr] at h
          dsimp only at h
          injection h with h'
          exact Or.inr (Or.inl h'.symm)
        | some p =>
          rw [hr] at h
          dsimp only at h
          cases he : z.lookup (String.mk p) with
          | none =>
            rw [he] at h
            dsimp only at h
            injection h with h'
            exact Or.inr (Or.inr (Or.inl ⟨p, h'.symm⟩))
          | some content =>
            rw [he] at h
            dsimp only at h
            exact absurd h (by simp)
  · rw [if_neg hext] at h
    exact absurd h (by simp)

/-- C2 counterexample: an `.mxl` buffer that is not a readable archive
fails import with a caught `Validation error:` message, which is none of
the four causes the claim lists. -/
theorem importFourCauses_counterexample :
    validateMusicXML ⟨none, "boom", ""⟩ "a.mxl" =
      ⟨false, ["Validation error: boom"]⟩ ∧
    ¬ ("Validation error: boom" =
        "Invalid MXL: Missing META-INF/container.xml" ∨
       "Validation error: boom" =
        "Invalid MXL: Cannot find rootfile in container.xml" ∨
       (∃ p : List Char, "Validation error: boom" =
         "Invalid MXL: Rootfile " ++ String.mk p ++ " not found in archive") ∨
       "Validation error: boom" =
        "Invalid MusicXML: Not a valid XML document") := by
  refine ⟨by decide, ?_⟩
  rintro (h | h | ⟨p, h⟩ | h)
  · exact absurd h (by decide)
  · exact absurd h (by decide)
  · have h2 := congrArg String.data h
    rw [String.data_append, String.data_append] at h2
    have h3 := congrArg (List.take 2) h2
    rw [List.take_append_of_le_length
        (show 2 ≤ ("Invalid MXL: Rootfile ".data ++ p).length by
          rw [List.length_append]
          have h22 : "Invalid MXL: Rootfile ".data.length = 22 := by decide
          omega),
      List.take_append_of_le_length
        (by decide : 2 ≤ "Invalid MXL: Rootfile ".data.length)] at h3
    exact absurd h3 (by decide)
  · exact absurd h (by decide)

/-- C2 amended: every input on which the import stage (container
resolution plus the XML-document check) fails is reported to the caller
as `valid = false` with exactly one human-readable message, drawn from
five distinct causes — the archive missing `META-INF/container.xml`, the
descriptor missing a root-file reference, the referenced root-file entry
absent from the archive, text failing the XML-document check, or an
unreadable archive converted into a caught `Validation error:` message —
and the result carries no document content. -/
theorem importFailure_five_causes (input : UploadBuffer) (fn : String)
    (e : String) (h : importScoreText input fn = .error e) :
    validateMusicXML input fn = ⟨false, [e]⟩ ∧
    (e = "Invalid MXL: Missing META-INF/container.xml" ∨
     e = "Invalid MXL: Cannot find rootfile in container.xml" ∨
     (∃ p : List Char,
       e = "Invalid MXL: Rootfile " ++ String.mk p ++ " not found in archive") ∨
     e = "Invalid MusicXML: Not a valid XML document" ∨
     (∃ m : String, e = "Validation error: " ++ m)) := by
  unfold importScoreText at h
  cases hres : resolveContent input fn with
  | error e' =>
    rw [hres] at h
    dsimp only at h
    injection h with h'
    subst h'
    refine ⟨by unfold validateMusicXML; rw [hres], ?_⟩
    rcases resolveContent_error_form input fn e' hres with h1 | h1 | ⟨p, h1⟩ | ⟨m, h1⟩
    · exact Or.inl h1
    · exact Or.inr (Or.inl h1)
    · exact Or.inr (Or.inr (Or.inl ⟨p, h1⟩))
    · exact Or.inr (Or.inr (Or.inr (Or.inr ⟨m, h1⟩)))
  | ok xml =>
    rw [hres] at h
    dsimp only at h
    by_cases hcond :
        (!hasXmlDecl xml && !hasPartwise xml && !hasTimewise xml) = true
    · rw [if_pos hcond] at h
      injection h with h'
      constructor
      · unfold validateMusicXML
        rw [hres]
        dsimp only
        unfold validateXmlText
        rw [if_pos hcond, ← h']
      · exact Or.inr (Or.inr (Or.inr (Or.inl h'.symm)))
    · rw [if_neg hcond] at h
      exact absurd h (by simp)

/-- Witness for `importFailure_five_causes` at a concrete archive with no
container descriptor. -/
theorem importFailure_five_causes_witness :
    validateMusicXML ⟨some [], "", ""⟩ "b.mxl" =
      ⟨false, ["Invalid MXL: Missing META-INF/container.xml"]⟩ ∧
    ("Invalid MXL: Missing META-INF/container.xml" =
        "Invalid MXL: Missing META-INF/container.xml" ∨
     "Invalid MXL: Missing META-INF/container.xml" =
        "Invalid MXL: Cannot find rootfile in container.xml" ∨
     (∃ p : List Char, "Invalid MXL: Missing META-INF/container.xml" =
        "Invalid MXL: Rootfile " ++ String.mk p ++ " not found in archive") ∨
     "Invalid MXL: Missing META-INF/container.xml" =
        "Invalid MusicXML: Not a valid XML document" ∨
     (∃ m : String, "Invalid MXL: Missing META-INF/container.xml" =
        "Validation error: " ++ m)) :=
  importFailure_five_causes ⟨some [], "", ""⟩ "b.mxl"
    "Invalid MXL: Missing META-INF/container.xml" (by decide)

/-- Witness for `parseObjectPath_spec`: a two-part path fails, a path
without a leading slash is normalised and split into bucket and object. -/
theorem parseObjectPath_spec_witness :
    parseObjectPath "/a" = .error "Invalid path" ∧
    parseObjectPath "b/x/y" = .ok ⟨"b", "x/y"⟩ := by
  constructor
  · exact (parseObjectPath_spec "/a").1 (by decide)
  · exact (parseObjectPath_spec "b/x/y").2 (by decide)

/-- A valid score's tail is valid. -/
theorem validScore_tail {m : MeasureData} {ms : List MeasureData}
    (h : ValidScore (m :: ms)) : ValidScore ms :=
  fun x hx => h x (List.mem_cons_of_mem _ hx)

/-- Every entry the builder emits from clock `t` on lies at or after
`t`. -/
theorem buildTimelineFrom_lower (ms : List MeasureData) :
    ∀ t : ℚ, ValidScore ms →
      ∀ e ∈ buildTimelineFrom t ms, t ≤ e.globalTime := by
  induction ms with
  | nil => intro t _ e he; simp [buildTimelineFrom] at he
  | cons m ms ih =>
    intro t hv e he
    rw [buildTimelineFrom] at he
    rcases List.mem_append.1 he with h | h
    · rcases List.mem_map.1 h with ⟨n, hn, rfl⟩
      have hnn := (hv m (List.mem_cons_self _ _)).2.2 n hn
      simpa using hnn.1
    · have hd := (hv m (List.mem_cons_self _ _)).1
      have := ih (t + m.duration) (validScore_tail hv) e h
      linarith

/-- The builder's output from any starting clock is non-decreasing in
`globalTime`. -/
theorem buildTimelineFrom_chain (ms : List MeasureData) :
    ∀ t : ℚ, ValidScore ms →
      (buildTimelineFrom t ms).Chain'
        (fun a b => a.globalTime ≤ b.globalTime) := by
  induction ms with
  | nil => intro t _; simp [buildTimelineFrom]
  | cons m ms ih =>
    intro t hv
    rw [buildTimelineFrom, List.chain'_append]
    refine ⟨?_, ih (t + m.duration) (validScore_tail hv), ?_⟩
    · have hchain := (hv m (List.mem_cons_self _ _)).2.1
      rw [List.chain'_map] at hchain ⊢
      exact hchain.imp fun a b hab => add_le_add_left hab t
    · intro x hx y hy
      rw [List.getLast?_map] at hx
      rcases Option.map_eq_some'.1 hx with ⟨n, hn, rfl⟩
      have hnm : n ∈ m.notes := List.mem_of_getLast?_eq_some hn
      have h1 : n.time ≤ m.duration :=
        ((hv m (List.mem_cons_self _ _)).2.2 n hnm).2
      have h2 : t + m.duration ≤ y.globalTime :=
        buildTimelineFrom_lower ms (t + m.duration) (validScore_tail hv) y
          (List.mem_of_mem_head? hy)
      simp only []
      linarith

/-- C4: for every valid score, the `TimelineEntry` sequence emitted by the
timeline builder has `globalTime` monotonically non-decreasing in emission
order. -/
theorem timeline_monotone (ms : List MeasureData) (h : ValidScore ms) :
    (buildCompleteTimeline ms).Chain'
      (fun a b => a.globalTime ≤ b.globalTime) :=
  buildTimelineFrom_chain ms 0 h

/-- Witness for `timeline_monotone`: three quarter notes in one 3/4
measure (the specification's `c4 d4 e4` scenario). -/
theorem timeline_monotone_witness :
    (buildCompleteTimeline
      [⟨[⟨0, 1, 60⟩, ⟨1, 1, 62⟩, ⟨2, 1, 64⟩], 3⟩]).Chain'
      (fun a b => a.globalTime ≤ b.globalTime) :=
  timeline_monotone [⟨[⟨0, 1, 60⟩, ⟨1, 1, 62⟩, ⟨2, 1, 64⟩], 3⟩] (by
    intro m hm
    simp only [List.mem_singleton] at hm
    subst hm
    refine ⟨by norm_num, ?_, ?_⟩
    · simp [List.chain'_cons]
    · intro n hn
      simp only [List.mem_cons, List.not_mem_nil, or_false] at hn
      rcases hn with rfl | rfl | rfl <;> norm_num)

/-- Whatever greedy overlap removal keeps was among the occurrences. -/
theorem greedyKeepFrom_subset (L : Nat) (ps : List Nat) :
    ∀ last, ∀ x ∈ greedyKeepFrom L last ps, x ∈ ps := by
  induction ps with
  | nil => intro last x hx; simp [greedyKeepFrom] at hx
  | cons p ps ih =>
    intro last x hx
    rw [greedyKeepFrom] at hx
    split at hx
    · rcases List.mem_cons.1 hx with rfl | hx
      · exact List.mem_cons_self _ _
      · exact List.mem_cons_of_mem _ (ih p x hx)
    · exact List.mem_cons_of_mem _ (ih last x hx)

/-- Everything greedy overlap removal keeps after a kept occurrence at
`last` starts at or after `last + L`. -/
theorem greedyKeepFrom_lb (L : Nat) (ps : List Nat) :
    ∀ last, ∀ x ∈ greedyKeepFrom L last ps, last + L ≤ x := by
  induction ps with
  | nil => intro last x hx; simp [greedyKeepFrom] at hx
  | cons p ps ih =>
    intro last x hx
    rw [greedyKeepFrom] at hx
    split at hx
    case isTrue h =>
      rcases List.mem_cons.1 hx with rfl | hx
      · exact h
      · have := ih p x hx
        omega
    case isFalse h => exact ih last x hx

/-- The kept occurrences are pairwise separated by at least the window
length, in order. -/
theorem greedyKeepFrom_pairwise (L : Nat) (ps : List Nat) :
    ∀ last, (greedyKeepFrom L last ps).Pairwise (fun a b => a + L ≤ b) := by
  induction ps with
  | nil => intro last; simp [greedyKeepFrom]
  | cons p ps ih =>
    intro last
    rw [greedyKeepFrom]
    split
    · rw [List.pairwise_cons]
      exact ⟨fun b hb => greedyKeepFrom_lb L ps p b hb, ih p⟩
    · exact ih last

/-- `greedyKeep` keeps a subset of the occurrence list. -/
theorem greedyKeep_subset (L : Nat) (ps : List Nat) :
    ∀ x ∈ greedyKeep L ps, x ∈ ps := by
  cases ps with
  | nil => intro x hx; simp [greedyKeep] at hx
  | cons p ps =>
    intro x hx
    rw [greedyKeep] at hx
    rcases List.mem_cons.1 hx with rfl | hx
    · exact List.mem_cons_self _ _
    · exact List.mem_cons_of_mem _ (greedyKeepFrom_subset L ps p x hx)

/-- `greedyKeep` output is pairwise separated by the window length. -/
theorem greedyKeep_pairwise (L : Nat) (ps : List Nat) :
    (greedyKeep L ps).Pairwise (fun a b => a + L ≤ b) := by
  cases ps with
  | nil => simp [greedyKeep]
  | cons p ps =>
    rw [greedyKeep, List.pairwise_cons]
    exact ⟨fun b hb => greedyKeepFrom_lb L ps p b hb,
      greedyKeepFrom_pairwise L ps p⟩

/-- C5: every pattern retained in the detector's final output has length
at least 3, at least 2 surviving positions, every position's window inside
the sequence (`p + length ≤ totalNoteCount`), and no two positions with
overlapping windows of the pattern's own length. -/
theorem detectPatterns_invariants (S : List Char) (pat : Pattern)
    (h : pat ∈ detectPatternsFromSteps S) :
    3 ≤ pat.length ∧ 2 ≤ pat.positions.length ∧
    (∀ p ∈ pat.positions, p + pat.length ≤ S.length) ∧
    (∀ p ∈ pat.positions, ∀ q ∈ pat.positions, p ≠ q →
      p + pat.length ≤ q ∨ q + pat.length ≤ p) := by
  unfold detectPatternsFromSteps at h
  rw [List.mem_flatten] at h
  obtain ⟨l, hl, hpat⟩ := h
  rw [List.mem_map] at hl
  obtain ⟨L, hLmem, rfl⟩ := hl
  rw [List.mem_range'] at hLmem
  obtain ⟨i, hi, rfl⟩ := hLmem
  have hL3 : 3 ≤ 3 + 1 * i := by omega
  have hLcap : 3 + 1 * i ≤ S.length := by
    unfold patternCap at hi
    omega
  unfold patternsOfLength at hpat
  rw [List.mem_filterMap] at hpat
  obtain ⟨k, _, heq⟩ := hpat
  dsimp only at heq
  split_ifs at heq with h2 h3
  · injection heq with heq
    subst heq
    refine ⟨hL3, h3, ?_, ?_⟩
    · intro p hp
      have hpos := greedyKeep_subset _ _ p hp
      unfold positionsOf at hpos
      rw [List.mem_filter, List.mem_range] at hpos
      show p + (3 + 1 * i) ≤ S.length
      omega
    · intro p hp q hq hne
      have hpw := greedyKeep_pairwise (3 + 1 * i)
        (positionsOf S (3 + 1 * i) k)
      have hsym : (greedyKeep (3 + 1 * i)
          (positionsOf S (3 + 1 * i) k)).Pairwise
          (fun a b => a + (3 + 1 * i) ≤ b ∨ b + (3 + 1 * i) ≤ a) :=
        hpw.imp fun hab => Or.inl hab
      exact hsym.forall (fun a b hab => hab.symm) hp hq hne

/-- Witness for `detectPatterns_invariants`: the step sequence `abcabc`
retains the pattern `abc` at positions 0 and 3. -/
theorem detectPatterns_invariants_witness :
    3 ≤ (⟨"abc".toList, 3, [0, 3]⟩ : Pattern).length ∧
    2 ≤ (⟨"abc".toList, 3, [0, 3]⟩ : Pattern).positions.length ∧
    (∀ p ∈ (⟨"abc".toList, 3, [0, 3]⟩ : Pattern).positions,
      p + (⟨"abc".toList, 3, [0, 3]⟩ : Pattern).length ≤
        "abcabc".toList.length) ∧
    (∀ p ∈ (⟨"abc".toList, 3, [0, 3]⟩ : Pattern).positions,
      ∀ q ∈ (⟨"abc".toList, 3, [0, 3]⟩ : Pattern).positions, p ≠ q →
        p + (⟨"abc".toList, 3, [0, 3]⟩ : Pattern).length ≤ q ∨
        q + (⟨"abc".toList, 3, [0, 3]⟩ : Pattern).length ≤ p) :=
  detectPatterns_invariants "abcabc".toList ⟨"abc".toList, 3, [0, 3]⟩
    (by decide)

/-- Edit distance of a list to itself is zero (given enough fuel). -/
theorem levFuel_self :
    ∀ (n : Nat) (xs : List Char), xs.length ≤ n → levFuel n xs xs = 0 := by
  intro n
  induction n with
  | zero =>
    intro xs h
    have hx : xs = [] := List.length_eq_zero.1 (Nat.le_zero.1 h)
    subst hx
    rfl
  | succ n ih =>
    intro xs h
    cases xs with
    | nil => rfl
    | cons x xs =>
      rw [show levFuel (n + 1) (x :: xs) (x :: xs) =
          if x = x then levFuel n xs xs
          else 1 + min (levFuel n xs (x :: xs))
            (min (levFuel n (x :: xs) xs) (levFuel n xs xs)) from rfl,
        if_pos rfl]
      exact ih xs (by simp at h; omega)

/-- Every key is within threshold of itself. -/
theorem thr_self (k : List Char) : thr k k = true := by
  unfold thr levenshtein
  rw [levFuel_self _ _ (by omega)]
  simp

/-- The fuelled edit distance is symmetric. -/
theorem levFuel_comm :
    ∀ (n : Nat) (a b : List Char), levFuel n a b = levFuel n b a := by
  intro n
  induction n with
  | zero =>
    intro a b
    show max a.length b.length = max b.length a.length
    exact Nat.max_comm _ _
  | succ n ih =>
    intro a b
    cases a with
    | nil =>
      cases b with
      | nil => rfl
      | cons y ys => rfl
    | cons x xs =>
      cases b with
      | nil => rfl
      | cons y ys =>
        show (if x = y then levFuel n xs ys
            else 1 + min (levFuel n xs (y :: ys))
              (min (levFuel n (x :: xs) ys) (levFuel n xs ys))) =
          (if y = x then levFuel n ys xs
            else 1 + min (levFuel n ys (x :: xs))
              (min (levFuel n (y :: ys) xs) (levFuel n ys xs)))
        by_cases hxy : x = y
        · rw [if_pos hxy, if_pos hxy.symm]
          exact ih xs ys
        · rw [if_neg hxy, if_neg (Ne.symm hxy), ih xs (y :: ys),
            ih (x :: xs) ys, ih xs ys]
          omega

/-- The grouping threshold is symmetric. -/
theorem thr_comm (a b : List Char) : thr a b = thr b a := by
  unfold thr levenshtein
  rw [levFuel_comm, Nat.add_comm a.length b.length,
    Nat.max_comm a.length b.length]

/-- A group containing a key within threshold of `k` is near `k`. -/
theorem nearGroup_of_mem {k x : List Char} {g : List (List Char)}
    (hx : x ∈ g) (hthr : thr k x = true) : nearGroup k g = true := by
  unfold nearGroup
  rw [List.any_eq_true]
  exact ⟨x, hx, hthr⟩

/-- One `addKey` step preserves the clustering invariant: every processed
key lies in some group, groups are pairwise disjoint, and keys within
threshold share a group. -/
theorem addKey_inv (groups : List (List (List Char)))
    (processed : List (List Char)) (k : List Char)
    (h1 : ∀ x ∈ processed, ∃ g ∈ groups, x ∈ g)
    (h2 : groups.Pairwise (fun g g' => ∀ x, x ∈ g → x ∉ g'))
    (h3 : ∀ x ∈ processed, ∀ y ∈ processed, thr x y = true →
      ∃ g ∈ groups, x ∈ g ∧ y ∈ g) :
    (∀ x ∈ processed ++ [k], ∃ g ∈ addKey groups k, x ∈ g) ∧
    (addKey groups k).Pairwise (fun g g' => ∀ x, x ∈ g → x ∉ g') ∧
    (∀ x ∈ processed ++ [k], ∀ y ∈ processed ++ [k], thr x y = true →
      ∃ g ∈ addKey groups k, x ∈ g ∧ y ∈ g) := by
  have hsymm : Symmetric
      (fun (g g' : List (List Char)) => ∀ x, x ∈ g → x ∉ g') :=
    fun g g' h x hx' hx => h x hx hx'
  have hk_merged : k ∈ k :: (groups.filter (nearGroup k)).flatten :=
    List.mem_cons_self _ _
  have hmerged : ∀ {g : List (List Char)} {x : List Char}, g ∈ groups →
      nearGroup k g = true → x ∈ g →
      x ∈ k :: (groups.filter (nearGroup k)).flatten := by
    intro g x hg hnear hx
    exact List.mem_cons_of_mem _
      (List.mem_flatten.2 ⟨g, List.mem_filter.2 ⟨hg, hnear⟩, hx⟩)
  have hfar : ∀ {g : List (List Char)}, ¬ nearGroup k g = true →
      g ∈ groups → g ∈ groups.filter (fun g => !nearGroup k g) := by
    intro g hn hg
    refine List.mem_filter.2 ⟨hg, ?_⟩
    revert hn
    cases nearGroup k g <;> simp
  have hdisj : ∀ gf ∈ groups.filter (fun g => !nearGroup k g),
      ∀ x, x ∈ k :: (groups.filter (nearGroup k)).flatten → x ∉ gf := by
    intro gf hgf x hx hxgf
    obtain ⟨hgf_mem, hgf_far⟩ := List.mem_filter.1 hgf
    have hgf_not : nearGroup k gf = false := by
      revert hgf_far
      cases nearGroup k gf <;> simp
    rcases List.mem_cons.1 hx with rfl | hx
    · have hne := nearGroup_of_mem hxgf (thr_self _)
      rw [hne] at hgf_not
      simp at hgf_not
    · obtain ⟨gn, hgn, hxgn⟩ := List.mem_flatten.1 hx
      obtain ⟨hgn_mem, hgn_near⟩ := List.mem_filter.1 hgn
      have hne : gn ≠ gf := by
        intro hgg
        rw [hgg, hgf_not] at hgn_near
        cases hgn_near
      exact (h2.forall hsymm) hgn_mem hgf_mem hne x hxgn hxgf
  refine ⟨?_, ?_, ?_⟩
  · intro x hx
    rcases List.mem_append.1 hx with hx | hx
    · obtain ⟨g, hg, hxg⟩ := h1 x hx
      by_cases hn : nearGroup k g = true
      · exact ⟨_, List.mem_cons_self _ _, hmerged hg hn hxg⟩
      · exact ⟨g, List.mem_cons_of_mem _ (hfar hn hg), hxg⟩
    · rw [List.mem_singleton] at hx
      refine ⟨_, List.mem_cons_self _ _, ?_⟩
      rw [hx]
      exact hk_merged
  · unfold addKey
    rw [List.pairwise_cons]
    exact ⟨hdisj, List.Pairwise.sublist (List.filter_sublist _) h2⟩
  · intro x hx y hy hthr
    rcases List.mem_append.1 hx with hx | hx <;>
      rcases List.mem_append.1 hy with hy | hy
    · obtain ⟨g, hg, hxg, hyg⟩ := h3 x hx y hy hthr
      by_cases hn : nearGroup k g = true
      · exact ⟨_, List.mem_cons_self _ _, hmerged hg hn hxg,
          hmerged hg hn hyg⟩
      · exact ⟨g, List.mem_cons_of_mem _ (hfar hn hg), hxg, hyg⟩
    · rw [List.mem_singleton] at hy
      obtain ⟨g, hg, hxg⟩ := h1 x hx
      have hthr' : thr k x = true := by
        rw [thr_comm, ← hy]
        exact hthr
      have hnear : nearGroup k g = true := nearGroup_of_mem hxg hthr'
      refine ⟨_, List.mem_cons_self _ _, hmerged hg hnear hxg, ?_⟩
      rw [hy]
      exact hk_merged
    · rw [List.mem_singleton] at hx
      obtain ⟨g, hg, hyg⟩ := h1 y hy
      have hthr' : thr k y = true := by
        rw [← hx]
        exact hthr
      have hnear : nearGroup k g = true := nearGroup_of_mem hyg hthr'
      refine ⟨_, List.mem_cons_self _ _, ?_, hmerged hg hnear hyg⟩
      rw [hx]
      exact hk_merged
    · rw [List.mem_singleton] at hx
      rw [List.mem_singleton] at hy
      refine ⟨_, List.mem_cons_self _ _, ?_, ?_⟩
      · rw [hx]
        exact hk_merged
      · rw [hy]
        exact hk_merged

/-- The clustering invariant holds after folding any key list. -/
theorem foldl_addKey_inv :
    ∀ (keys : List (List Char)) (groups : List (List (List Char)))
      (processed : List (List Char)),
      (∀ x ∈ processed, ∃ g ∈ groups, x ∈ g) →
      groups.Pairwise (fun g g' => ∀ x, x ∈ g → x ∉ g') →
      (∀ x ∈ processed, ∀ y ∈ processed, thr x y = true →
        ∃ g ∈ groups, x ∈ g ∧ y ∈ g) →
      (∀ x ∈ processed ++ keys, ∃ g ∈ keys.foldl addKey groups, x ∈ g) ∧
      (keys.foldl addKey groups).Pairwise
        (fun g g' => ∀ x, x ∈ g → x ∉ g') ∧
      (∀ x ∈ processed ++ keys, ∀ y ∈ processed ++ keys, thr x y = true →
        ∃ g ∈ keys.foldl addKey groups, x ∈ g ∧ y ∈ g) := by
  intro keys
  induction keys with
  | nil =>
    intro groups processed h1 h2 h3
    simpa using ⟨h1, h2, h3⟩
  | cons k keys ih =>
    intro groups processed h1 h2 h3
    obtain ⟨g1, g2, g3⟩ := addKey_inv groups processed k h1 h2 h3
    have hres := ih (addKey groups k) (processed ++ [k]) g1 g2 g3
    rw [show processed ++ k :: keys = (processed ++ [k]) ++ keys by
      simp]
    exact hres

/-- C6: grouping is transitive-closed — whenever key `A` is within the
30% edit-distance threshold of `B` and `B` of `C`, all three end up in
the same group of `groupSimilarPhrases`, even when the `A`–`C` distance
alone exceeds the threshold. -/
theorem grouping_transitive (keys : List (List Char)) (A B C : List Char)
    (hA : A ∈ keys) (hB : B ∈ keys) (hC : C ∈ keys)
    (hAB : thr A B = true) (hBC : thr B C = true) :
    ∃ g ∈ groupSimilarPhrases keys, A ∈ g ∧ C ∈ g := by
  obtain ⟨_, h2, h3⟩ := foldl_addKey_inv keys [] []
    (by simp) (by simp) (by simp)
  have hsymm : Symmetric
      (fun (g g' : List (List Char)) => ∀ x, x ∈ g → x ∉ g') :=
    fun g g' h x hx' hx => h x hx hx'
  obtain ⟨gab, hgab, hAg, hBg⟩ := h3 A (by simpa using hA) B
    (by simpa using hB) hAB
  obtain ⟨gbc, hgbc, hBg', hCg⟩ := h3 B (by simpa using hB) C
    (by simpa using hC) hBC
  by_cases heq : gab = gbc
  · subst heq
    exact ⟨gab, hgab, hAg, hCg⟩
  · exact absurd hBg' ((h2.forall hsymm) hgab hgbc heq B hBg)

/-- Witness for `grouping_transitive`: three length-5 keys chained by
single edits end up in one group. -/
theorem grouping_transitive_witness :
    ∃ g ∈ groupSimilarPhrases
        ["aaaaa".toList, "aaaab".toList, "aaabb".toList],
      "aaaaa".toList ∈ g ∧ "aaabb".toList ∈ g :=
  grouping_transitive ["aaaaa".toList, "aaaab".toList, "aaabb".toList]
    "aaaaa".toList "aaaab".toList "aaabb".toList
    (by decide) (by decide) (by decide) (by decide) (by decide)

end MusicReader
